import Mathlib

/-!
Verification of the deployment orchestration engine in
`src/forc-plugins/forc-client/src/op/deploy.rs`.

The Rust code is shallowly embedded: pure computations become Lean
functions, the effectful submit/await/write steps become explicit values
describing the performed effects (the transaction built, the artifact
written, the submissions attempted), and the node's answer is an input of
the embedding.  Cryptographic primitives that live outside `src/`
(bytecode Merkle root, initial state root, contract-id hash) are modelled
from the spec as injective encodings, as marked on each definition.
-/

namespace ForcDeploy

/-- `MAX_CONTRACT_SIZE` from deploy.rs line 45. -/
def MAX_CONTRACT_SIZE : Nat := 480

/-- A storage slot: a key/value pair.  Mirrors `fuel_tx::StorageSlot`,
whose derived `Ord` compares the key first, then the value. -/
structure StorageSlot where
  key : Nat
  value : Nat
deriving DecidableEq

/-- The order in which `storage_slots.sort()` sorts slots in deploy.rs
line 448: the derived lexicographic order on (key, value). -/
def slotLe (a b : StorageSlot) : Prop :=
  a.key < b.key ∨ (a.key = b.key ∧ a.value ≤ b.value)

instance : DecidableRel slotLe := fun a b =>
  decidable_of_iff (a.key < b.key ∨ (a.key = b.key ∧ a.value ≤ b.value)) Iff.rfl

instance : IsTotal StorageSlot slotLe :=
  ⟨fun a b => by unfold slotLe; omega⟩

instance : IsTrans StorageSlot slotLe :=
  ⟨fun a b c hab hbc => by unfold slotLe at hab hbc ⊢; omega⟩

/-- `storage_slots.sort()` (deploy.rs line 448): sort by the derived
order of `fuel_tx::StorageSlot` (key first, then value). -/
def sortSlots (l : List StorageSlot) : List StorageSlot :=
  List.insertionSort slotLe l

/-- Modelled from the spec: `Contract::root()` (fuel-vm, outside `src/`)
is a deterministic cryptographic summary of the bytecode; it is modelled
as an injective encoding of the bytecode. -/
def bytecode_root (bytecode : List Nat) : List Nat := bytecode

/-- Modelled from the spec: `Contract::initial_state_root` (fuel-vm,
outside `src/`) is derived deterministically from the storage-slot
sequence it is given; it is modelled as an injective encoding of that
sequence. -/
def initial_state_root (slots : List StorageSlot) : List StorageSlot := slots

/-- A contract id.  Modelled from the spec: `compute_id` is a
deterministic (collision-free) function of bytecode root, salt and state
root, so the id is modelled as the triple itself. -/
structure ContractId where
  root : List Nat
  salt : Nat
  stateRoot : List StorageSlot
deriving DecidableEq

/-- Modelled from the spec: `Contract::id(salt, root, state_root)`
(fuel-vm, outside `src/`), the pure contract-id derivation. -/
def compute_id (root : List Nat) (salt : Nat) (stateRoot : List StorageSlot) :
    ContractId :=
  ⟨root, salt, stateRoot⟩

/-- `fuel_core_client TransactionStatus`, as matched in deploy.rs
lines 483-524. -/
inductive TxStatus
  | submitted
  | success (block_height : Nat)
  | squeezedOut (reason : String)
  | failure (reason : String)
deriving DecidableEq

/-- What the bounded submit-and-await step yields to `deploy_pkg`:
either the whole wait timed out (`tokio::time::timeout` expired), or the
client returned a transaction status, or the client returned a transport
error. -/
inductive NodeResponse
  | timedOut
  | ok (status : TxStatus)
  | err (e : String)
deriving DecidableEq

/-- The error classification of `deploy_pkg` (deploy.rs lines 482-538):
each constructor corresponds to one `bail!`/context site. -/
inductive DeployPkgError
  /-- `bail!("contract .. deployment timed out")` on a still-Submitted status. -/
  | timedOutPending (cid : ContractId)
  /-- the `tokio::time::timeout` context error: "Timed out waiting for contract .. to deploy". -/
  | waitTimedOut (cid : ContractId)
  /-- `bail!("contract .. failed to deploy due to an error: ..")` carrying the status detail. -/
  | nodeRejection (cid : ContractId) (status : TxStatus)
  /-- `Err(e) => bail!("..")`: transport / node-communication failure. -/
  | nodeCommunication (e : String)
deriving DecidableEq

/-- The deployment transaction assembled by
`CreateTransactionBuilder::prepare_contract_deployment` (deploy.rs
lines 457-464). -/
structure DeployTx where
  bytecode : List Nat
  contract_id : ContractId
  state_root : List StorageSlot
  salt : Nat
  storage_slots : List StorageSlot
deriving DecidableEq

/-- `DeploymentArtifact` (deploy.rs lines 53-62).  The transaction id is
represented by the transaction itself (its hash is computed outside
`src/`). -/
structure DeploymentArtifact where
  transaction_id : DeployTx
  salt : Nat
  network_endpoint : String
  chain_id : Nat
  contract_id : ContractId
  deployment_size : Nat
  deployed_block_height : Nat
deriving DecidableEq

/-- Everything `deploy_pkg` does, made explicit: the transaction it
builds and submits, the artifact file it writes (if any), and the value
or error it returns. -/
structure DeployPkgRun where
  tx : DeployTx
  artifact : Option DeploymentArtifact
  result : Except DeployPkgError ContractId

/-- `deploy_pkg` (deploy.rs lines 429-540).  `override_storage_slots` is
the parsed contents of the `--override-storage-slots` file when one was
given; `resp` is the outcome of the bounded submit-and-await step. -/
def deploy_pkg (override_storage_slots : Option (List StorageSlot))
    (compiled_slots : List StorageSlot) (bytecode : List Nat) (salt : Nat)
    (node_url : String) (chain_id : Nat) (resp : NodeResponse) : DeployPkgRun :=
  let storage_slots := override_storage_slots.getD compiled_slots
  let storage_slots := sortSlots storage_slots
  let root := bytecode_root bytecode
  let state_root := initial_state_root storage_slots
  let contract_id := compute_id root salt state_root
  let tx : DeployTx := ⟨bytecode, contract_id, state_root, salt, storage_slots⟩
  match resp with
  | .timedOut => ⟨tx, none, .error (.waitTimedOut contract_id)⟩
  | .err e => ⟨tx, none, .error (.nodeCommunication e)⟩
  | .ok .submitted => ⟨tx, none, .error (.timedOutPending contract_id)⟩
  | .ok (.success h) =>
    let artifact : DeploymentArtifact :=
      ⟨tx, salt, node_url, chain_id, contract_id, bytecode.length, h⟩
    ⟨tx, some artifact, .ok contract_id⟩
  | .ok s => ⟨tx, none, .error (.nodeRejection contract_id s)⟩

/-- The transaction built by `deploy_pkg` does not depend on the node's
answer: bytecode, sorted slots, their state root, and the locally
computed contract id. -/
theorem deploy_pkg_tx (ov : Option (List StorageSlot)) (cs : List StorageSlot)
    (bc : List Nat) (salt : Nat) (url : String) (cid : Nat) (resp : NodeResponse) :
    (deploy_pkg ov cs bc salt url cid resp).tx =
      ⟨bc, compute_id (bytecode_root bc) salt (initial_state_root (sortSlots (ov.getD cs))),
        initial_state_root (sortSlots (ov.getD cs)), salt, sortSlots (ov.getD cs)⟩ := by
  cases resp with
  | timedOut => rfl
  | err e => rfl
  | ok s => cases s <;> rfl

/-- C1: for a single-contract deployment submission, the artifact file is
written if and only if the node reports the `Success` commitment status;
a still-`Submitted` status at the end of the wait, and an expiry of the
bounded wait itself, both fail with timeout errors whose constructors are
distinct from the node-rejection error; and no artifact is written on
either timeout or on rejection. -/
theorem claim_c1 (ov : Option (List StorageSlot)) (cs : List StorageSlot)
    (bc : List Nat) (salt : Nat) (url : String) (cid : Nat) :
    (∀ resp, (deploy_pkg ov cs bc salt url cid resp).artifact.isSome
        ↔ ∃ h, resp = .ok (.success h))
    ∧ (∃ c, (deploy_pkg ov cs bc salt url cid (.ok .submitted)).result
        = .error (.timedOutPending c))
    ∧ (∃ c, (deploy_pkg ov cs bc salt url cid .timedOut).result
        = .error (.waitTimedOut c))
    ∧ (∀ c c' s, DeployPkgError.timedOutPending c ≠ DeployPkgError.nodeRejection c' s)
    ∧ (∀ c c' s, DeployPkgError.waitTimedOut c ≠ DeployPkgError.nodeRejection c' s)
    ∧ (∀ s, (deploy_pkg ov cs bc salt url cid (.ok (.failure s))).artifact = none)
    ∧ (∀ s, (deploy_pkg ov cs bc salt url cid (.ok (.squeezedOut s))).artifact = none)
    ∧ (deploy_pkg ov cs bc salt url cid (.ok .submitted)).artifact = none
    ∧ (deploy_pkg ov cs bc salt url cid .timedOut).artifact = none := by
  refine ⟨?_, ⟨_, rfl⟩, ⟨_, rfl⟩, ?_, ?_, ?_, ?_, rfl, rfl⟩
  · intro resp
    cases resp with
    | timedOut => simp [deploy_pkg]
    | err e => simp [deploy_pkg]
    | ok s => cases s <;> simp [deploy_pkg]
  · intro c c' s h
    exact DeployPkgError.noConfusion h
  · intro c c' s h
    exact DeployPkgError.noConfusion h
  · intro s; rfl
  · intro s; rfl

/-- C5: on a successful commitment the contract id returned (and recorded
in the artifact, and carried by the committed transaction) is exactly the
id computed locally from (bytecode root, salt, state root); `compute_id`
is injective, so equal ids force equal inputs and distinct inputs force a
mismatch; and every definitive non-success status is a fatal error. -/
theorem claim_c5 (ov : Option (List StorageSlot)) (cs : List StorageSlot)
    (bc : List Nat) (salt : Nat) (url : String) (cid : Nat) (h : Nat) :
    ((deploy_pkg ov cs bc salt url cid (.ok (.success h))).result
        = .ok (deploy_pkg ov cs bc salt url cid (.ok (.success h))).tx.contract_id)
    ∧ ((deploy_pkg ov cs bc salt url cid (.ok (.success h))).tx.contract_id
        = compute_id (bytecode_root bc) salt
            (deploy_pkg ov cs bc salt url cid (.ok (.success h))).tx.state_root)
    ∧ ((deploy_pkg ov cs bc salt url cid (.ok (.success h))).artifact.map
          (fun a => a.contract_id)
        = some (deploy_pkg ov cs bc salt url cid (.ok (.success h))).tx.contract_id)
    ∧ (∀ r s t r' s' t', compute_id r s t = compute_id r' s' t'
        ↔ (r = r' ∧ s = s' ∧ t = t'))
    ∧ (∀ reason, (deploy_pkg ov cs bc salt url cid (.ok (.failure reason))).result
        = .error (.nodeRejection
            (deploy_pkg ov cs bc salt url cid (.ok (.failure reason))).tx.contract_id
            (.failure reason)))
    ∧ (∀ reason, (deploy_pkg ov cs bc salt url cid (.ok (.squeezedOut reason))).result
        = .error (.nodeRejection
            (deploy_pkg ov cs bc salt url cid (.ok (.squeezedOut reason))).tx.contract_id
            (.squeezedOut reason))) := by
  refine ⟨rfl, rfl, rfl, ?_, fun reason => rfl, fun reason => rfl⟩
  intro r s t r' s' t'
  simp [compute_id, ContractId.mk.injEq]

/-- The result of sorting the storage slots is pairwise ordered by key. -/
theorem sortSlots_key_sorted (l : List StorageSlot) :
    (sortSlots l).Pairwise (fun a b => a.key ≤ b.key) := by
  have h := List.sorted_insertionSort slotLe l
  exact h.imp (fun hab => by unfold slotLe at hab; omega)

/-- Sorting the storage slots permutes them. -/
theorem sortSlots_perm (l : List StorageSlot) : List.Perm (sortSlots l) l :=
  List.perm_insertionSort slotLe l

/-- C9: for every deployment (the storage slots being either the override
file's contents or the compiled ones), the slot sequence placed in the
transaction is the sorted (by key) permutation of the chosen slots, the
state root is computed from exactly that sorted sequence, and the
contract id is derived from that state root. -/
theorem claim_c9 (ov : Option (List StorageSlot)) (cs : List StorageSlot)
    (bc : List Nat) (salt : Nat) (url : String) (cid : Nat) (resp : NodeResponse) :
    ((deploy_pkg ov cs bc salt url cid resp).tx.storage_slots
        = sortSlots (ov.getD cs))
    ∧ (deploy_pkg ov cs bc salt url cid resp).tx.storage_slots.Pairwise
        (fun a b => a.key ≤ b.key)
    ∧ List.Perm (deploy_pkg ov cs bc salt url cid resp).tx.storage_slots (ov.getD cs)
    ∧ ((deploy_pkg ov cs bc salt url cid resp).tx.state_root
        = initial_state_root (deploy_pkg ov cs bc salt url cid resp).tx.storage_slots)
    ∧ ((deploy_pkg ov cs bc salt url cid resp).tx.contract_id
        = compute_id (bytecode_root bc) salt
            (initial_state_root (deploy_pkg ov cs bc salt url cid resp).tx.storage_slots)) := by
  rw [deploy_pkg_tx]
  exact ⟨rfl, sortSlots_key_sorted _, sortSlots_perm _, rfl, rfl⟩

/-- Association-list lookup, modelling `BTreeMap::get` on the
contract-salt map (keys are contract names). -/
def assocLookup : List (String × Nat) → String → Option Nat
  | [], _ => none
  | (k, v) :: rest, key => if k = key then some v else assocLookup rest key

/-- Association-list update, the replacing half of `BTreeMap::insert`. -/
def assocSet : List (String × Nat) → String → Nat → List (String × Nat)
  | [], key, v => [(key, v)]
  | (k, v') :: rest, key, v =>
    if k = key then (key, v) :: rest else (k, v') :: assocSet rest key v

/-- `BTreeMap::insert`: stores the binding and returns the value the key
previously mapped to, if any. -/
def assocInsert (m : List (String × Nat)) (key : String) (v : Nat) :
    Option Nat × List (String × Nat) :=
  (assocLookup m key, assocSet m key v)

/-- `str::split_once(sep)`: the text before the first separator and the
text after it, or `none` when the separator does not occur. -/
def splitOnceAux : List Char → Char → Option (List Char × List Char)
  | [], _ => none
  | c :: rest, sep =>
    if c = sep then some ([], rest)
    else
      match splitOnceAux rest sep with
      | none => none
      | some (a, b) => some (c :: a, b)

/-- `str::split_once` lifted to `String`. -/
def splitOnce (s : String) (sep : Char) : Option (String × String) :=
  (splitOnceAux s.toList sep).map fun p => (⟨p.1⟩, ⟨p.2⟩)

/-- Value of one hexadecimal digit, upper or lower case. -/
def hexDigit (c : Char) : Option Nat :=
  if c.isDigit then some (c.toNat - 48)
  else if 97 ≤ c.toNat ∧ c.toNat ≤ 102 then some (c.toNat - 87)
  else if 65 ≤ c.toNat ∧ c.toNat ≤ 70 then some (c.toNat - 55)
  else none

/-- Folds hexadecimal digits into a number, failing on a non-digit. -/
def parseHexAux : List Char → Nat → Option Nat
  | [], acc => some acc
  | c :: rest, acc =>
    match hexDigit c with
    | none => none
    | some d => parseHexAux rest (16 * acc + d)

/-- `str::parse::<Salt>()` (fuel-types `FromStr`, outside `src/`),
modelled from its observable contract: an optional `0x` prefix followed
by exactly 64 hexadecimal digits encoding the 32-byte salt. -/
def parseSalt (s : String) : Option Nat :=
  let cs := s.toList
  let cs := if cs.take 2 = ['0', 'x'] then cs.drop 2 else cs
  if cs.length = 64 then parseHexAux cs 0 else none

/-- The failure modes of `validate_and_parse_salts` (deploy.rs
lines 89-129), each constructor one `bail!` site, carrying the data the
message interpolates. -/
inductive SaltValidationError
  /-- "Invalid salt provided - salt must be in the form CONTRACT_NAME:SALT when deploying a workspace". -/
  | invalidFormat
  /-- "2 salts provided for contract ..", quoting the old and the new value. -/
  | duplicate (name : String) (old next : Nat)
  /-- "Redeclaration of salt using the option --salt ..", naming the dependency,
  the manifest it came from, the existing (pinned) salt and the newly declared one. -/
  | redeclaration (dep_name : String) (manifest_project : String)
      (existing declared : Nat)
deriving DecidableEq

/-- How a call of `validate_and_parse_salts` can end.  `panicked` models
the `.unwrap()` on deploy.rs lines 98-101, which panics (instead of
returning) when the salt hex does not parse. -/
inductive SaltParseOutcome
  | ok (m : List (String × Nat))
  | err (e : SaltValidationError)
  | panicked
deriving DecidableEq

/-- True exactly when the outcome is an error returned to the caller. -/
def SaltParseOutcome.returnsError : SaltParseOutcome → Bool
  | .err _ => true
  | _ => false

/-- The first loop of `validate_and_parse_salts` (deploy.rs lines 96-109):
split each argument at the first colon (bailing when there is none),
parse the salt hex (panicking via `.unwrap()` when it is invalid), and
insert it into the map (bailing when the name was already bound). -/
def parse_salt_args : List String → List (String × Nat) → SaltParseOutcome
  | [], acc => .ok acc
  | arg :: rest, acc =>
    match splitOnce arg ':' with
    | none => .err .invalidFormat
    | some (given_contract_name, salt_str) =>
      match parseSalt salt_str with
      | none => .panicked
      | some salt =>
        match assocInsert acc given_contract_name salt with
        | (some old, _) => .err (.duplicate given_contract_name old salt)
        | (none, acc') => parse_salt_args rest acc'

/-- One entry of `manifest.contract_deps()`: the dependency name (the
map key), the optional `package` field, and the salt the manifest pins
for it.  Modelled from the spec: `contract_deps` (forc-pkg, outside
`src/`) yields the declared contract dependencies that carry an explicit
salt in the member's manifest. -/
structure ContractDep where
  dep_name : String
  pkg_field : Option String
  salt : Nat
deriving DecidableEq

/-- The part of a `PackageManifestFile` that `validate_and_parse_salts`
reads: its project name and its contract dependencies. -/
structure Manifest where
  project_name : String
  contract_deps : List ContractDep
deriving DecidableEq

/-- The inner loop of the manifest check (deploy.rs lines 112-125): for
each contract dependency, resolve the dependency package name
(`package().unwrap_or(dep_name)`) and bail when the CLI map also binds
it, citing the manifest, its pinned salt and the declared one. -/
def check_manifest_deps (m : List (String × Nat)) (project : String) :
    List ContractDep → Option SaltValidationError
  | [] => none
  | d :: rest =>
    let dep_pkg_name := d.pkg_field.getD d.dep_name
    match assocLookup m dep_pkg_name with
    | some declared => some (.redeclaration dep_pkg_name project d.salt declared)
    | none => check_manifest_deps m project rest

/-- The outer loop of the manifest check (deploy.rs lines 111-126). -/
def check_manifests (m : List (String × Nat)) : List Manifest → Option SaltValidationError
  | [] => none
  | mf :: rest =>
    match check_manifest_deps m mf.project_name mf.contract_deps with
    | some e => some e
    | none => check_manifests m rest

/-- `validate_and_parse_salts` (deploy.rs lines 89-129): parse all salt
arguments into a map, then validate the map against every workspace
manifest's contract dependencies. -/
def validate_and_parse_salts (salt_args : List String) (manifests : List Manifest) :
    SaltParseOutcome :=
  match parse_salt_args salt_args [] with
  | .ok m =>
    match check_manifests m manifests with
    | some e => .err e
    | none => .ok m
  | out => out

/-- Whether some workspace manifest declares a contract dependency whose
resolved package name is bound by the CLI-supplied salt map. -/
def hasConflict (m : List (String × Nat)) (manifests : List Manifest) : Bool :=
  manifests.any fun mf =>
    mf.contract_deps.any fun d => (assocLookup m (d.pkg_field.getD d.dep_name)).isSome

/-- The dependency check over one manifest succeeds exactly when none of
its contract dependencies is bound by the CLI map. -/
theorem check_manifest_deps_isSome (m : List (String × Nat)) (p : String)
    (deps : List ContractDep) :
    (check_manifest_deps m p deps).isSome
      = deps.any fun d => (assocLookup m (d.pkg_field.getD d.dep_name)).isSome := by
  induction deps with
  | nil => rfl
  | cons d rest ih =>
    simp only [check_manifest_deps, List.any_cons]
    cases h : assocLookup m (d.pkg_field.getD d.dep_name) with
    | none => simp [h, ih]
    | some dec => simp [h]

/-- Every error the dependency check of one manifest can produce is a
redeclaration error citing that manifest, a conflicting dependency's
pinned salt, and the CLI-declared salt. -/
theorem check_manifest_deps_eq_some (m : List (String × Nat)) (p : String)
    (deps : List ContractDep) (e : SaltValidationError) :
    check_manifest_deps m p deps = some e →
      ∃ d ∈ deps, ∃ dec, assocLookup m (d.pkg_field.getD d.dep_name) = some dec
        ∧ e = .redeclaration (d.pkg_field.getD d.dep_name) p d.salt dec := by
  induction deps with
  | nil => intro h; exact absurd h (by simp [check_manifest_deps])
  | cons d rest ih =>
    intro h
    simp only [check_manifest_deps] at h
    cases hl : assocLookup m (d.pkg_field.getD d.dep_name) with
    | none =>
      rw [hl] at h
      obtain ⟨d', hd', dec, hdec, he⟩ := ih h
      exact ⟨d', List.mem_cons_of_mem _ hd', dec, hdec, he⟩
    | some dec =>
      rw [hl] at h
      refine ⟨d, List.mem_cons_self _ _, dec, hl, ?_⟩
      exact (Option.some.injEq _ _ ▸ h).symm

/-- The manifest sweep finds an error exactly when some manifest has a
conflicting contract dependency. -/
theorem check_manifests_isSome (m : List (String × Nat)) (ms : List Manifest) :
    (check_manifests m ms).isSome = hasConflict m ms := by
  induction ms with
  | nil => rfl
  | cons mf rest ih =>
    simp only [check_manifests, hasConflict, List.any_cons]
    cases h : check_manifest_deps m mf.project_name mf.contract_deps with
    | none =>
      have := check_manifest_deps_isSome m mf.project_name mf.contract_deps
      rw [h] at this
      simp only [Option.isSome_none] at this
      simp [← this, ih, hasConflict]
    | some e =>
      have := check_manifest_deps_isSome m mf.project_name mf.contract_deps
      rw [h] at this
      simp only [Option.isSome_some] at this
      simp [← this]

/-- Every error the manifest sweep can produce is a redeclaration error
citing one of the manifests and one of its conflicting dependencies. -/
theorem check_manifests_eq_some (m : List (String × Nat)) (ms : List Manifest)
    (e : SaltValidationError) :
    check_manifests m ms = some e →
      ∃ mf ∈ ms, ∃ d ∈ mf.contract_deps, ∃ dec,
        assocLookup m (d.pkg_field.getD d.dep_name) = some dec
          ∧ e = .redeclaration (d.pkg_field.getD d.dep_name) mf.project_name d.salt dec := by
  induction ms with
  | nil => intro h; exact absurd h (by simp [check_manifests])
  | cons mf rest ih =>
    intro h
    simp only [check_manifests] at h
    cases hc : check_manifest_deps m mf.project_name mf.contract_deps with
    | none =>
      rw [hc] at h
      obtain ⟨mf', hmf', rest'⟩ := ih h
      exact ⟨mf', List.mem_cons_of_mem _ hmf', rest'⟩
    | some e' =>
      rw [hc] at h
      have h' : (some e' : Option SaltValidationError) = some e := h
      have he2 : e' = e := Option.some.inj h'
      obtain ⟨d, hd, dec, hdec, he⟩ := check_manifest_deps_eq_some m _ _ _ hc
      exact ⟨mf, List.mem_cons_self _ _, d, hd, dec, hdec, he2 ▸ he⟩

/-- C6: once the CLI salt arguments have parsed into a map, the
validation fails with a redeclaration error exactly when the map binds
the resolved package name of some contract dependency declared (with its
pinned salt) in some workspace member's manifest; when it does, the
error names that manifest's project and carries the pinned salt and the
newly declared one. -/
theorem claim_c6 (args : List String) (manifests : List Manifest)
    (m : List (String × Nat)) (hp : parse_salt_args args [] = .ok m) :
    ((∃ d p ex dec, validate_and_parse_salts args manifests
        = .err (.redeclaration d p ex dec))
      ↔ hasConflict m manifests = true)
    ∧ (∀ d p ex dec, validate_and_parse_salts args manifests
        = .err (.redeclaration d p ex dec) →
        ∃ mf ∈ manifests, mf.project_name = p
          ∧ ∃ dep ∈ mf.contract_deps, dep.pkg_field.getD dep.dep_name = d
            ∧ dep.salt = ex ∧ assocLookup m d = some dec) := by
  have hval : validate_and_parse_salts args manifests
      = match check_manifests m manifests with
        | some e => .err e
        | none => .ok m := by
    unfold validate_and_parse_salts
    rw [hp]
  constructor
  · constructor
    · rintro ⟨d, p, ex, dec, h⟩
      rw [hval] at h
      cases hc : check_manifests m manifests with
      | none => rw [hc] at h; exact absurd h (by simp)
      | some e =>
        rw [← check_manifests_isSome, hc]
        rfl
    · intro hc
      rw [← check_manifests_isSome] at hc
      cases hm : check_manifests m manifests with
      | none => rw [hm] at hc; exact absurd hc (by simp)
      | some e =>
        obtain ⟨mf, _, d, _, dec, _, he⟩ := check_manifests_eq_some m manifests e hm
        refine ⟨d.pkg_field.getD d.dep_name, mf.project_name, d.salt, dec, ?_⟩
        rw [hval, hm, he]
  · intro d p ex dec h
    rw [hval] at h
    cases hm : check_manifests m manifests with
    | none => rw [hm] at h; exact absurd h (by simp)
    | some e =>
      rw [hm] at h
      have h' : SaltParseOutcome.err e = .err (.redeclaration d p ex dec) := h
      have he : e = .redeclaration d p ex dec := SaltParseOutcome.err.inj h'
      obtain ⟨mf, hmf, dp, hdp, dec', hdec', he'⟩ :=
        check_manifests_eq_some m manifests e hm
      obtain ⟨h1, h2, h3, h4⟩ := SaltValidationError.redeclaration.inj (he.symm.trans he')
      exact ⟨mf, hmf, h2.symm, dp, hdp, h1.symm, h3.symm, by rw [h1, h4]; exact hdec'⟩

/-- A concrete workspace salt argument pinning the dependency name used
by the C6 witness. -/
def c6Args : List String :=
  ["dep:0x0000000000000000000000000000000000000000000000000000000000000000"]

/-- A concrete workspace whose only member pins a salt for contract
dependency "dep", used by the C6 witness. -/
def c6Manifests : List Manifest := [⟨"proj", [⟨"dep", none, 3⟩]⟩]

/-- The map the C6 witness arguments parse to. -/
def c6Map : List (String × Nat) := [("dep", 0)]

/-- Witness instantiating C6 at a concrete workspace whose manifest pins
a salt for the same dependency the CLI names. -/
theorem claim_c6_witness :
    ((∃ d p ex dec, validate_and_parse_salts c6Args c6Manifests
        = .err (.redeclaration d p ex dec))
      ↔ hasConflict c6Map c6Manifests = true)
    ∧ (∀ d p ex dec, validate_and_parse_salts c6Args c6Manifests
        = .err (.redeclaration d p ex dec) →
        ∃ mf ∈ c6Manifests, mf.project_name = p
          ∧ ∃ dep ∈ mf.contract_deps, dep.pkg_field.getD dep.dep_name = d
            ∧ dep.salt = ex ∧ assocLookup c6Map d = some dec) :=
  claim_c6 c6Args c6Manifests c6Map (by rfl)

/-- C7 evaluation: a workspace salt argument with no colon is returned to
the caller as the format error, but an argument whose part after the
colon is not a valid 32-byte hex salt makes `validate_and_parse_salts`
panic through the `.unwrap()` on the parse result instead of returning
an error — so no error value reaches the caller in that case. -/
theorem claim_c7_code_divergence :
    validate_and_parse_salts ["a0x11"] [] = .err .invalidFormat
    ∧ validate_and_parse_salts ["a:zz"] [] = .panicked
    ∧ (validate_and_parse_salts ["a:zz"] []).returnsError = false
    ∧ (SaltParseOutcome.err SaltValidationError.invalidFormat).returnsError = true := by
  refine ⟨by rfl, by rfl, by rfl, by rfl⟩

/-- How the per-package salt decision can end: a chosen salt, or the
mutual-exclusivity `bail!` (deploy.rs line 321). -/
inductive SaltChoice
  | chosen (salt : Nat)
  | modeConflict (msg : String)
deriving DecidableEq

/-- The effective-salt decision of `deploy` (deploy.rs lines 310-323):
match on (the optional CLI salt map, the default-salt flag).  A present
map with the flag off uses the package's entry or, when the map has no
entry for it, `Default::default()` — the zero salt; no map with the flag
on uses the zero salt; no map with the flag off draws `rand::random()`,
here passed in as `random_salt`; a present map with the flag on fails. -/
def effective_salt (contract_salt_map : Option (List (String × Nat)))
    (default_salt : Bool) (project_name : String) (random_salt : Nat) : SaltChoice :=
  match contract_salt_map, default_salt with
  | some map, false =>
    match assocLookup map project_name with
    | some salt => .chosen salt
    | none => .chosen 0
  | none, true => .chosen 0
  | none, false => .chosen random_salt
  | some _, true =>
    .modeConflict "Both `--salt` and `--default-salt` were specified: must choose one"

/-- C3 counterexample: with a salt map supplied that has no entry for the
package and default-salt mode off, the code uses the zero (default)
salt, not the freshly generated random salt — refuting the claim that a
random salt is generated whenever no map entry exists for the package
and default-salt mode is off. -/
theorem claim_c3_counterexample :
    effective_salt (some [("A", 5)]) false "B" 7 = .chosen 0
    ∧ SaltChoice.chosen 0 ≠ SaltChoice.chosen 7 := by
  exact ⟨rfl, by decide⟩

/-- C3 as amended: the salt priority is keyed on whether a salt map was
supplied at all, not on per-package entries — map supplied and
default-salt off uses the package's entry when present and the zero
(default) salt otherwise; no map and default-salt on uses the zero salt;
no map and default-salt off uses the freshly generated random salt; map
supplied and default-salt on fails as mutually exclusive. -/
theorem claim_c3 (map : List (String × Nat)) (name : String) (r : Nat) :
    effective_salt (some map) false name r
        = .chosen ((assocLookup map name).getD 0)
    ∧ effective_salt none true name r = .chosen 0
    ∧ effective_salt none false name r = .chosen r
    ∧ effective_salt (some map) true name r
        = .modeConflict "Both `--salt` and `--default-salt` were specified: must choose one" := by
  refine ⟨?_, rfl, rfl, rfl⟩
  cases h : assocLookup map name <;> simp [effective_salt, h]

/-- C8: whenever both an explicit salt map and the default-salt flag are
supplied, the per-package salt decision fails with the error stating the
two options are mutually exclusive, whatever the package or the random
draw. -/
theorem claim_c8 (map : List (String × Nat)) (name : String) (r : Nat) :
    effective_salt (some map) true name r
      = .modeConflict "Both `--salt` and `--default-salt` were specified: must choose one" :=
  rfl

/-- The `[proxy]` section of a package manifest as `deploy` reads it:
the `enabled` flag and the optional recorded proxy address (already
parsed; `ContractId::from_str` lives outside `src/`). -/
structure ProxyConfig where
  enabled : Bool
  address : Option ContractId
deriving DecidableEq

/-- The outward effects of the proxy-handling block of `deploy`
(deploy.rs lines 357-417). -/
inductive ProxyEffect
  /-- `update_proxy_contract_target`: repoint the existing proxy at the
  new implementation id. -/
  | setTarget (proxy : ContractId) (impl_id : ContractId)
  /-- `deploy_new_proxy`: a fresh proxy contract was deployed. -/
  | deployedNewProxy (proxy : ContractId)
  /-- `update_proxy_address_in_manifest`: the manifest now records the
  new proxy address. -/
  | manifestUpdated (proxy : ContractId)
deriving DecidableEq

/-- The proxy-handling block of `deploy` (deploy.rs lines 357-417).
`signing_key` is what `select_secret_key` resolves: `none` models the
interactive prompt-based-only case (modelled from the spec, the selector
lives outside `src/`); `new_proxy_id` is the id `deploy_new_proxy` would
return for this package.  The result pairs the returned proxy id (or the
error) with the effects performed. -/
def handle_proxy (proxy : Option ProxyConfig) (signing_key : Option Nat)
    (impl_id : ContractId) (new_proxy_id : ContractId) :
    Except String (Option ContractId) × List ProxyEffect :=
  match proxy with
  | some p =>
    if p.enabled then
      match p.address with
      | some proxy_addr =>
        match signing_key with
        | none =>
          (.error "proxy contract deployments are not supported with manual prompt based signing",
            [])
        | some _ => (.ok (some proxy_addr), [.setTarget proxy_addr impl_id])
      | none =>
        (.ok (some new_proxy_id),
          [.deployedNewProxy new_proxy_id, .manifestUpdated new_proxy_id])
    else (.ok none, [])
  | none => (.ok none, [])

/-- C4: with proxy enabled and a known address, the only effect is
repointing that proxy at the implementation id — no new proxy is ever
deployed — and the path fails when only an interactive prompt-based
signer is available (no signing key resolved); with proxy enabled and no
address, a new proxy is always deployed and the manifest is rewritten
with its address, which is also the returned proxy id; with proxy
disabled (or no proxy section), no proxy id is produced and nothing
happens. -/
theorem claim_c4 (a impl_id new_id : ContractId) (k : Nat)
    (ad : Option ContractId) (key : Option Nat) :
    handle_proxy (some ⟨true, some a⟩) (some k) impl_id new_id
        = (.ok (some a), [.setTarget a impl_id])
    ∧ handle_proxy (some ⟨true, some a⟩) none impl_id new_id
        = (.error "proxy contract deployments are not supported with manual prompt based signing",
            [])
    ∧ handle_proxy (some ⟨true, none⟩) key impl_id new_id
        = (.ok (some new_id), [.deployedNewProxy new_id, .manifestUpdated new_id])
    ∧ handle_proxy (some ⟨false, ad⟩) key impl_id new_id = (.ok none, [])
    ∧ handle_proxy none key impl_id new_id = (.ok none, []) := by
  refine ⟨rfl, rfl, ?_, rfl, rfl⟩
  cases key <;> rfl

/-- Fuel-driven worker for `split_into_chunks`: as long as bytes remain,
emit the next `size`-byte chunk and recurse on the rest.  The fuel
argument only bounds the recursion; `split_into_chunks` passes the byte
count, which always suffices. -/
def split_into_chunksAux : Nat → List Nat → Nat → List (List Nat)
  | 0, _, _ => []
  | fuel + 1, bytes, size =>
    if bytes = [] ∨ size = 0 then []
    else bytes.take size :: split_into_chunksAux fuel (bytes.drop size) size

/-- Modelled from the spec: `split_into_chunks` (forc-client
`util::pkg`, outside `src/`) splits bytecode into ordered segments of at
most `size` bytes, ceil(length / size) of them, whose concatenation in
order is the original bytecode. -/
def split_into_chunks (bytes : List Nat) (size : Nat) : List (List Nat) :=
  split_into_chunksAux bytes.length bytes size

/-- Concatenating the chunks produced by the worker, in order,
reproduces the input bytes. -/
theorem split_aux_join (fuel : Nat) : ∀ (bytes : List Nat) (size : Nat),
    size ≠ 0 → bytes.length ≤ fuel →
    (split_into_chunksAux fuel bytes size).flatten = bytes := by
  induction fuel with
  | zero =>
    intro bytes size hs hf
    have hb : bytes = [] := List.eq_nil_of_length_eq_zero (Nat.le_zero.mp hf)
    subst hb; rfl
  | succ n ih =>
    intro bytes size hs hf
    by_cases hb : bytes = []
    · subst hb; rfl
    · have hcond : ¬(bytes = [] ∨ size = 0) := by simp [hb, hs]
      have hpos : 0 < bytes.length := List.length_pos.mpr hb
      simp only [split_into_chunksAux]
      rw [if_neg hcond, List.flatten_cons,
        ih (bytes.drop size) size hs (by rw [List.length_drop]; omega),
        List.take_append_drop]

/-- The worker produces exactly ceil(length / size) chunks. -/
theorem split_aux_length (fuel : Nat) : ∀ (bytes : List Nat) (size : Nat),
    size ≠ 0 → bytes.length ≤ fuel →
    (split_into_chunksAux fuel bytes size).length
      = (bytes.length + size - 1) / size := by
  induction fuel with
  | zero =>
    intro bytes size hs hf
    have hb : bytes = [] := List.eq_nil_of_length_eq_zero (Nat.le_zero.mp hf)
    subst hb
    simp only [split_into_chunksAux, List.length_nil]
    exact (Nat.div_eq_of_lt (by omega)).symm
  | succ n ih =>
    intro bytes size hs hf
    by_cases hb : bytes = []
    · subst hb
      have hnil : split_into_chunksAux (n + 1) ([] : List Nat) size = [] := rfl
      rw [hnil]
      simp only [List.length_nil]
      exact (Nat.div_eq_of_lt (by omega)).symm
    · have hcond : ¬(bytes = [] ∨ size = 0) := by simp [hb, hs]
      have hpos : 0 < bytes.length := List.length_pos.mpr hb
      simp only [split_into_chunksAux]
      rw [if_neg hcond, List.length_cons,
        ih (bytes.drop size) size hs (by rw [List.length_drop]; omega),
        List.length_drop]
      have h1 : bytes.length + size - 1 = (bytes.length - 1) + size := by omega
      rw [h1, Nat.add_div_right _ (Nat.pos_of_ne_zero hs)]
      congr 1
      by_cases hls : size ≤ bytes.length
      · congr 1; omega
      · have e1 : bytes.length - size = 0 := by omega
        rw [e1, Nat.div_eq_of_lt (by omega), Nat.div_eq_of_lt (by omega)]

/-- Every chunk the worker produces holds at most `size` bytes. -/
theorem split_aux_sizes (fuel : Nat) : ∀ (bytes : List Nat) (size : Nat),
    ∀ c ∈ split_into_chunksAux fuel bytes size, c.length ≤ size := by
  induction fuel with
  | zero =>
    intro bytes size c hc
    simp only [split_into_chunksAux, List.not_mem_nil] at hc
  | succ n ih =>
    intro bytes size c hc
    by_cases hcond : bytes = [] ∨ size = 0
    · rw [split_into_chunksAux, if_pos hcond] at hc
      simp at hc
    · rw [split_into_chunksAux, if_neg hcond] at hc
      rcases List.mem_cons.mp hc with h | h
      · subst h; rw [List.length_take]; omega
      · exact ih _ _ c h

/-- Chunk concatenation round-trip for `split_into_chunks`. -/
theorem split_into_chunks_join (bytes : List Nat) (size : Nat) (hs : size ≠ 0) :
    (split_into_chunks bytes size).flatten = bytes :=
  split_aux_join bytes.length bytes size hs (Nat.le_refl _)

/-- Chunk count of `split_into_chunks` is ceil(length / size). -/
theorem split_into_chunks_length (bytes : List Nat) (size : Nat) (hs : size ≠ 0) :
    (split_into_chunks bytes size).length = (bytes.length + size - 1) / size :=
  split_aux_length bytes.length bytes size hs (Nat.le_refl _)

/-- Every chunk of `split_into_chunks` holds at most `size` bytes. -/
theorem split_into_chunks_sizes (bytes : List Nat) (size : Nat) :
    ∀ c ∈ split_into_chunks bytes size, c.length ≤ size :=
  split_aux_sizes bytes.length bytes size

/-- The payload a chunked deployment submits: either one raw bytecode
segment, or the loader contract.  Modelled from the spec:
`build_loader_contract` (outside `src/`) embeds the ordered list of
chunk contract ids and their count plus the original ABI, so the loader
payload is that data itself. -/
inductive ChunkCode
  | raw (bytes : List Nat)
  | loader (abi : Nat) (chunk_ids : List Nat) (count : Nat)
deriving DecidableEq

/-- Whether a payload is the loader contract. -/
def ChunkCode.isLoaderCode : ChunkCode → Bool
  | .loader _ _ _ => true
  | .raw _ => false

/-- One network deployment submission: the payload and the salt it is
deployed with. -/
structure Submission where
  code : ChunkCode
  salt : Nat
deriving DecidableEq

/-- `sway_core::asm_generation::ProgramABI` as matched in deploy.rs
lines 207-210. -/
inductive ProgramABI
  | fuel (abi : Nat)
  | evm (abi : Nat)
  | midenVM (abi : Nat)
deriving DecidableEq

/-- Whether the ABI is in FuelVM form (the only form chunking supports). -/
def ProgramABI.isFuelABI : ProgramABI → Bool
  | .fuel _ => true
  | _ => false

/-- The chunk-deployment loop of `deploy_chunked` (deploy.rs
lines 190-196): deploy every chunk sequentially with the given salt,
recording each submission; a failing submission aborts the loop. -/
def deploy_chunks_loop (submit : ChunkCode → Nat → Except String Nat) (salt : Nat) :
    List (List Nat) → List Submission × Except String (List Nat)
  | [] => ([], .ok [])
  | c :: rest =>
    match submit (.raw c) salt with
    | .error e => ([⟨.raw c, salt⟩], .error e)
    | .ok cid =>
      match deploy_chunks_loop submit salt rest with
      | (subs, .error e) => (⟨.raw c, salt⟩ :: subs, .error e)
      | (subs, .ok ids) => (⟨.raw c, salt⟩ :: subs, .ok (cid :: ids))

/-- The failure modes of `deploy_chunked`. -/
inductive ChunkDeployError
  /-- `bail!("contract chunking is only supported with fuelVM")`. -/
  | unsupportedChunkingTarget (msg : String)
  /-- a chunk or loader submission failed. -/
  | submissionFailed (e : String)
deriving DecidableEq

/-- `deploy_chunked` (deploy.rs lines 180-230): split the bytecode at
`MAX_CONTRACT_SIZE`, deploy every chunk with the package's salt, then —
only for a FuelVM ABI — build the loader embedding the ordered chunk ids
and their count and deploy it with the same salt; a non-FuelVM ABI fails
after the chunk deployments and before any loader is built.  The first
component records every submission performed. -/
def deploy_chunked (submit : ChunkCode → Nat → Except String Nat)
    (bytecode : List Nat) (salt : Nat) (program_abi : ProgramABI) :
    List Submission × Except ChunkDeployError (Nat × List Nat) :=
  match deploy_chunks_loop submit salt (split_into_chunks bytecode MAX_CONTRACT_SIZE) with
  | (subs, .error e) => (subs, .error (.submissionFailed e))
  | (subs, .ok ids) =>
    match program_abi with
    | .fuel a =>
      let loader_code := ChunkCode.loader a ids ids.length
      match submit loader_code salt with
      | .error e => (subs ++ [⟨loader_code, salt⟩], .error (.submissionFailed e))
      | .ok lid => (subs ++ [⟨loader_code, salt⟩], .ok (lid, ids))
    | _ =>
      (subs, .error (.unsupportedChunkingTarget
        "contract chunking is only supported with fuelVM"))

/-- A submitter that always succeeds, its result given by `f`. -/
def totalSubmit (f : ChunkCode → Nat → Nat) : ChunkCode → Nat → Except String Nat :=
  fun c s => .ok (f c s)

/-- Under an always-succeeding submitter the chunk loop deploys every
chunk, in order, each with the given salt, and collects the ids in the
same order. -/
theorem deploy_chunks_loop_total (f : ChunkCode → Nat → Nat) (salt : Nat)
    (chunks : List (List Nat)) :
    deploy_chunks_loop (totalSubmit f) salt chunks
      = (chunks.map fun c => ⟨.raw c, salt⟩,
         .ok (chunks.map fun c => f (.raw c) salt)) := by
  induction chunks with
  | nil => rfl
  | cons c rest ih => simp [deploy_chunks_loop, totalSubmit, ih]

/-- Which deployment path `deploy` takes for a package (deploy.rs
line 331): chunked exactly when the bytecode size exceeds
`MAX_CONTRACT_SIZE`. -/
inductive DeployPath
  | direct
  | chunked
deriving DecidableEq

/-- The size dispatch of `deploy` (deploy.rs line 331). -/
def deploy_path (bytecode_size : Nat) : DeployPath :=
  if MAX_CONTRACT_SIZE < bytecode_size then .chunked else .direct

/-- The conclusion of claim C2, at fixed submitter, bytecode, salt and
FuelVM ABI. -/
def C2Statement (f : ChunkCode → Nat → Nat) (bytecode : List Nat) (salt a : Nat) : Prop :=
  let chunks := split_into_chunks bytecode MAX_CONTRACT_SIZE
  let ids := chunks.map fun c => f (.raw c) salt
  let loader_code := ChunkCode.loader a ids ids.length
  deploy_path bytecode.length = .chunked
  ∧ chunks.length = (bytecode.length + MAX_CONTRACT_SIZE - 1) / MAX_CONTRACT_SIZE
  ∧ chunks.flatten = bytecode
  ∧ (∀ c ∈ chunks, c.length ≤ MAX_CONTRACT_SIZE)
  ∧ deploy_chunked (totalSubmit f) bytecode salt (.fuel a)
      = (chunks.map (fun c => Submission.mk (.raw c) salt)
          ++ [Submission.mk loader_code salt],
         .ok (f loader_code salt, ids))
  ∧ ids.length = chunks.length
  ∧ (∀ s ∈ chunks.map (fun c => Submission.mk (.raw c) salt)
        ++ [Submission.mk loader_code salt], s.salt = salt)
  ∧ (∀ L, L ≤ MAX_CONTRACT_SIZE → deploy_path L = .direct)

/-- C2: a package whose bytecode exceeds `MAX_CONTRACT_SIZE` goes through
the chunked path: the bytecode splits into ceil(L / MAX_CONTRACT_SIZE)
ordered segments of at most `MAX_CONTRACT_SIZE` bytes whose in-order
concatenation is the original bytecode; every chunk and the loader are
submitted with the package's salt; the loader embeds the ordered list of
chunk ids, whose length is the chunk count and whose order is deployment
order; and bytecode at or below the limit takes the direct path. -/
theorem claim_c2 (f : ChunkCode → Nat → Nat) (bytecode : List Nat) (salt a : Nat)
    (h : MAX_CONTRACT_SIZE < bytecode.length) : C2Statement f bytecode salt a := by
  have hs : MAX_CONTRACT_SIZE ≠ 0 := by decide
  refine ⟨?_, split_into_chunks_length _ _ hs, split_into_chunks_join _ _ hs,
    split_into_chunks_sizes _ _, ?_, List.length_map _ _, ?_, ?_⟩
  · unfold deploy_path
    rw [if_pos h]
  · show deploy_chunked (totalSubmit f) bytecode salt (.fuel a) = _
    unfold deploy_chunked
    rw [deploy_chunks_loop_total]
    rfl
  · intro s hsub
    rcases List.mem_append.mp hsub with hm | hm
    · obtain ⟨c, _, rfl⟩ := List.mem_map.mp hm
      rfl
    · rw [List.mem_singleton.mp hm]
  · intro L hL
    unfold deploy_path
    rw [if_neg (by omega)]

/-- Witness for C2 at a concrete 481-byte bytecode (two chunks). -/
theorem claim_c2_witness : C2Statement (fun _ _ => 0) (List.replicate 481 0) 0 0 :=
  claim_c2 _ _ _ _ (by rw [List.length_replicate]; decide)

/-- The conclusion of claim C10, at fixed submitter, bytecode, salt and
non-FuelVM ABI. -/
def C10Statement (f : ChunkCode → Nat → Nat) (bytecode : List Nat) (salt : Nat)
    (program_abi : ProgramABI) : Prop :=
  let chunks := split_into_chunks bytecode MAX_CONTRACT_SIZE
  deploy_chunked (totalSubmit f) bytecode salt program_abi
      = (chunks.map (fun c => Submission.mk (.raw c) salt),
         .error (.unsupportedChunkingTarget
           "contract chunking is only supported with fuelVM"))
  ∧ (chunks.map (fun c => Submission.mk (.raw c) salt)).length
      = (bytecode.length + MAX_CONTRACT_SIZE - 1) / MAX_CONTRACT_SIZE
  ∧ (∀ s ∈ chunks.map (fun c => Submission.mk (.raw c) salt),
      s.code.isLoaderCode = false ∧ s.salt = salt)

/-- C10: chunked deployment of a package whose program ABI is not in
FuelVM form still submits every bytecode chunk first — the full
ceil(L / MAX_CONTRACT_SIZE) of them, each a raw (non-loader) submission
with the package's salt, all retained in the effect trace (nothing is
rolled back) — and only then fails with the unsupported-chunking-target
error, before any loader contract is built or submitted. -/
theorem claim_c10 (f : ChunkCode → Nat → Nat) (bytecode : List Nat) (salt : Nat)
    (program_abi : ProgramABI) (h : program_abi.isFuelABI = false) :
    C10Statement f bytecode salt program_abi := by
  have hs : MAX_CONTRACT_SIZE ≠ 0 := by decide
  refine ⟨?_, ?_, ?_⟩
  · cases program_abi with
    | fuel a => exact absurd h (by simp [ProgramABI.isFuelABI])
    | evm a =>
      show deploy_chunked (totalSubmit f) bytecode salt (.evm a) = _
      unfold deploy_chunked
      rw [deploy_chunks_loop_total]
    | midenVM a =>
      show deploy_chunked (totalSubmit f) bytecode salt (.midenVM a) = _
      unfold deploy_chunked
      rw [deploy_chunks_loop_total]
  · rw [List.length_map]
    exact split_into_chunks_length _ _ hs
  · intro s hsub
    obtain ⟨c, _, rfl⟩ := List.mem_map.mp hsub
    exact ⟨rfl, rfl⟩

/-- Witness for C10 at a concrete EVM-ABI package. -/
theorem claim_c10_witness : C10Statement (fun _ _ => 0) [1, 2, 3] 0 (.evm 0) :=
  claim_c10 _ _ _ _ rfl

end ForcDeploy
